import Mathlib

/-!
Shallow embedding of the theanolm layer code under verification:
src/theanolm/layers/basiclayer.py and src/theanolm/network/softmaxlayer.py.

Scalars (numpy floats) are modelled as rationals.  The exponential used by
the softmax is abstracted as an explicit function argument, and random number
generation is abstracted as explicit generator functions, so that every
definition stays executable.
-/

/-- A value stored in a parameter dictionary: a weight matrix or a bias vector
(numpy arrays in the source).  A matrix is a list of rows. -/
inductive ParamValue where
  | matrix (rows : List (List ℚ))
  | vector (entries : List ℚ)
deriving DecidableEq

/-- A Python dict from parameter names to parameter values. -/
def ParamStore : Type := String → Option ParamValue

/-- Dictionary assignment params[key] = v. -/
def storeSet (st : ParamStore) (key : String) (v : ParamValue) : ParamStore :=
  fun q => if q = key then some v else st q

/-- The attributes of BasicLayer that parameter declaration and retrieval use
(basiclayer.py, __init__ lines 38-50 and set_params line 53). -/
structure BasicLayer where
  name : String
  output_size : Nat
  param_init_values : ParamStore
  _params : ParamStore

/-- BasicLayer.__init__ (basiclayer.py lines 15-50): saves the name and output
size and starts from an empty param_init_values dictionary; _params is not
assigned until set_params and is modelled as the empty dictionary. -/
def BasicLayer.init (layer_name : String) (output_size : Nat) : BasicLayer :=
  { name := layer_name
    output_size := output_size
    param_init_values := fun _ => none
    _params := fun _ => none }

/-- BasicLayer.set_params (basiclayer.py lines 52-53). -/
def BasicLayer.set_params (layer : BasicLayer) (params : ParamStore) : BasicLayer :=
  { layer with _params := params }

/-- BasicLayer._get_param (basiclayer.py lines 55-56): looks up
<layer name>.<parameter name> in the params dictionary. -/
def BasicLayer._get_param (layer : BasicLayer) (param_name : String) : Option ParamValue :=
  layer._params (layer.name ++ "." ++ param_name)

/-- Modelled from the spec: theanolm.matrixfunctions.random_weight is not under
src/.  It generates an input_size by output_size matrix of random values scaled
by the factor scale; the random draw is abstracted as the generator gen. -/
def random_weight (gen : Nat → Nat → ℚ) (input_size output_size : Nat) (scale : ℚ) :
    List (List ℚ) :=
  (List.range input_size).map fun r => (List.range output_size).map fun c => scale * gen r c

/-- Modelled from the spec: theanolm.matrixfunctions.orthogonal_weight is not
under src/.  It generates an input_size by output_size matrix, orthogonal when
the two sizes match; its entries are abstracted as the generator gen applied to
the scale and the position. -/
def orthogonal_weight (gen : ℚ → Nat → Nat → ℚ) (input_size output_size : Nat) (scale : ℚ) :
    List (List ℚ) :=
  (List.range input_size).map fun r => (List.range output_size).map fun c => gen scale r c

/-- numpy.concatenate along axis 1: the rows of the matrices are joined
position by position. -/
def concatenateAxis1 : List (List (List ℚ)) → List (List ℚ)
  | [] => []
  | [m] => m
  | m :: ms => List.zipWith (fun r₁ r₂ => r₁ ++ r₂) m (concatenateAxis1 ms)

/-- BasicLayer._init_random_weight (basiclayer.py lines 58-77): stores under
<layer name>.<parameter name> the column-wise concatenation of count random
blocks, each drawn by random_weight with the hard-coded scale 0.01; the scale
argument of the method itself is never passed on.  Each block receives its own
generator gen b, modelling the fresh random draw per iteration. -/
def BasicLayer._init_random_weight (layer : BasicLayer) (gen : Nat → Nat → Nat → ℚ)
    (param_name : String) (input_size output_size : Nat) (scale : Option ℚ) (count : Nat) :
    BasicLayer :=
  { layer with
      param_init_values :=
        storeSet layer.param_init_values (layer.name ++ "." ++ param_name)
          (ParamValue.matrix (concatenateAxis1
            ((List.range count).map fun b =>
              random_weight (gen b) input_size output_size (1 / 100)))) }

/-- BasicLayer._init_orthogonal_weight (basiclayer.py lines 79-97): same
store-key convention and the same hard-coded scale 0.01, with blocks drawn by
orthogonal_weight. -/
def BasicLayer._init_orthogonal_weight (layer : BasicLayer) (gen : Nat → ℚ → Nat → Nat → ℚ)
    (param_name : String) (input_size output_size : Nat) (scale : Option ℚ) (count : Nat) :
    BasicLayer :=
  { layer with
      param_init_values :=
        storeSet layer.param_init_values (layer.name ++ "." ++ param_name)
          (ParamValue.matrix (concatenateAxis1
            ((List.range count).map fun b =>
              orthogonal_weight (gen b) input_size output_size (1 / 100)))) }

/-- A Python value passed to _init_bias: None, a float scalar, or a list whose
elements are None or floats. -/
inductive BiasValue where
  | noneVal
  | scalar (x : ℚ)
  | listVal (xs : List (Option ℚ))

/-- One subvector built by _init_bias (basiclayer.py lines 122-128): zeros when
the element is None, a constant fill otherwise. -/
def biasSubvector (size : Nat) : Option ℚ → List ℚ
  | none => List.replicate size 0
  | some x => List.replicate size x

/-- BasicLayer._init_bias (basiclayer.py lines 99-130): wraps a non-list value
into a one-element list, builds one subvector per element and stores their
concatenation under <layer name>.<parameter name>. -/
def BasicLayer._init_bias (layer : BasicLayer) (param_name : String) (size : Nat)
    (value : BiasValue) : BasicLayer :=
  let values : List (Option ℚ) :=
    match value with
    | BiasValue.listVal xs => xs
    | BiasValue.noneVal => [none]
    | BiasValue.scalar x => [some x]
  { layer with
      param_init_values :=
        storeSet layer.param_init_values (layer.name ++ "." ++ param_name)
          (ParamValue.vector (values.map (biasSubvector size)).flatten) }

/-- The slice of an input layer that the softmax layer consumes: its declared
output size and its 3-dimensional output, indexed by time step and sequence,
with the projection axis represented as a list. -/
structure LayerIn (t s : Nat) where
  output_size : Nat
  output : Fin t → Fin s → List ℚ

/-- The concatenation of the input layers along the third (projection) axis, in
list order (softmaxlayer.py lines 65-66). -/
def layerInput (inputs : List (LayerIn t s)) (i : Fin t) (j : Fin s) : List ℚ :=
  (inputs.map fun x => x.output i j).flatten

/-- The dot product of a projection vector with column k of a weight matrix. -/
def dotColumn (v : List ℚ) (w : List (List ℚ)) (k : Nat) : ℚ :=
  ∑ l ∈ Finset.range v.length, v.getD l 0 * ((w.getD l []).getD k 0)

/-- BasicLayer._tensor_preact (basiclayer.py lines 132-135) at one (time step,
sequence) position: the dot product of the layer input with the weight matrix
plus the bias, one component per output class.  The dictionary lookup of the
two parameters is abstracted: w and b are the values the params dictionary
holds for the weight and bias of the named parameter. -/
def tensor_preact (v : List ℚ) (w : List (List ℚ)) (b : List ℚ) (m : Nat) : Fin m → ℚ :=
  fun k => dotColumn v w k.val + b.getD k.val 0

/-- tensor.nnet.softmax of one row, with the exponential abstracted as e: each
component is e of that component divided by the sum of e over the row. -/
def softmax (e : ℚ → ℚ) {m : Nat} (v : Fin m → ℚ) : Fin m → ℚ :=
  fun k => e (v k) / ∑ l, e (v l)

/-- Row-major flattening of a (time step, sequence) position, as performed by
reshape([num_time_steps * num_sequences, output_size]). -/
def flatIdx {t s : Nat} (i : Fin t) (j : Fin s) : Fin (t * s) :=
  ⟨i.val * s + j.val, by
    have h1 : (i.val + 1) * s ≤ t * s := Nat.mul_le_mul_right s i.isLt
    have h2 : j.val < s := j.isLt
    have h3 : (i.val + 1) * s = i.val * s + s := Nat.succ_mul _ _
    omega⟩

/-- Time-step component of the row-major unflattening of a position. -/
def unflatIdx1 (t s : Nat) (p : Fin (t * s)) : Fin t :=
  ⟨p.val / s, by
    have hp := p.isLt
    have hs : 0 < s := by
      rcases Nat.eq_zero_or_pos s with h | h
      · subst h
        exact absurd hp (by simp)
      · exact h
    exact (Nat.div_lt_iff_lt_mul hs).mpr hp⟩

/-- Sequence component of the row-major unflattening of a position. -/
def unflatIdx2 (t s : Nat) (p : Fin (t * s)) : Fin s :=
  ⟨p.val % s, by
    have hp := p.isLt
    have hs : 0 < s := by
      rcases Nat.eq_zero_or_pos s with h | h
      · subst h
        exact absurd hp (by simp)
      · exact h
    exact Nat.mod_lt _ hs⟩

/-- The attributes of the Network object that SoftmaxLayer reads: the
exclude_unk flag, the target class ids matrix, and the id of the unknown word
that __init__ looked up in the vocabulary. -/
structure NetworkCtx (t s m : Nat) where
  exclude_unk : Bool
  target_class_ids : Fin t → Fin s → Fin m
  unk_id : Fin m

/-- Modelled from the spec: the random number source of the noise-sample
methods of SamplingOutputLayer (theanolm/network/samplingoutputlayer.py, not
under src/): one draw per (time step, sequence, sample), one shared across the
sequences of a time step, and one shared across the whole batch. -/
structure NoiseModel (t s m ns : Nat) where
  draw : Fin t → Fin s → Fin ns → Fin m
  drawSeq : Fin t → Fin ns → Fin m
  drawShared : Fin ns → Fin m

/-- The output attributes of SoftmaxLayer.  Each is None until
create_structure assigns it. -/
structure SoftmaxLayerState (t s m ns : Nat) where
  output_probs : Option (Fin t → Fin s → Fin m → ℚ)
  target_probs : Option (Fin t → Fin s → ℚ)
  unnormalized_logprobs : Option (Fin t → Fin s → ℚ)
  sample : Option (Fin t → Fin s → Fin ns → Fin m)
  sample_logprobs : Option (Fin t → Fin s → Fin ns → ℚ)
  seqshared_sample : Option (Fin t → Fin ns → Fin m)
  seqshared_sample_logprobs : Option (Fin t → Fin s → Fin ns → ℚ)
  shared_sample : Option (Fin ns → Fin m)
  shared_sample_logprobs : Option (Fin t → Fin s → Fin ns → ℚ)

/-- SoftmaxLayer.__init__ output attributes (softmaxlayer.py lines 37-45): all
nine are set to None. -/
def softmaxInitState (t s m ns : Nat) : SoftmaxLayerState t s m ns :=
  { output_probs := none
    target_probs := none
    unnormalized_logprobs := none
    sample := none
    sample_logprobs := none
    seqshared_sample := none
    seqshared_sample_logprobs := none
    shared_sample := none
    shared_sample_logprobs := none }

/-- Modelled from the spec: BasicLayer._init_weight is called by
SoftmaxLayer.__init__ but is not under src/ (the basiclayer.py under src/
offers _init_random_weight instead).  Following that convention, it stores
under <layer name>.<parameter name> a weight matrix of the given shape,
generated by random_weight with the given scale. -/
def BasicLayer._init_weight (layer : BasicLayer) (gen : Nat → Nat → ℚ)
    (param_name : String) (shape : Nat × Nat) (scale : ℚ) : BasicLayer :=
  { layer with
      param_init_values :=
        storeSet layer.param_init_values (layer.name ++ "." ++ param_name)
          (ParamValue.matrix (random_weight gen shape.1 shape.2 scale)) }

/-- SoftmaxLayer.__init__ parameter creation (softmaxlayer.py lines 24-34) in
the class_prior_probs = None branch, which every claim exercises: the weight
matrix input/W is created with input dimension the sum of the output sizes of
the input layers, and the bias input/b with zero initial value. -/
def softmaxInitParams (layer : BasicLayer) (gen : Nat → Nat → ℚ)
    (inputs : List (LayerIn t s)) : BasicLayer :=
  let input_size := (inputs.map fun x => x.output_size).sum
  let layer₁ :=
    BasicLayer._init_weight layer gen "input/W" (input_size, layer.output_size) (1 / 100)
  BasicLayer._init_bias layer₁ "input/b" layer.output_size BiasValue.noneVal

/-- Modelled from the spec: SamplingOutputLayer._get_unnormalized_logprobs is
not under src/.  The unnormalized log probability at each position is the
pre-activation of the target class there. -/
def get_unnormalized_logprobs (net : NetworkCtx t s m) (inputs : List (LayerIn t s))
    (w : List (List ℚ)) (b : List ℚ) : Fin t → Fin s → ℚ :=
  fun i j => tensor_preact (layerInput inputs i j) w b m (net.target_class_ids i j)

/-- Modelled from the spec: SamplingOutputLayer._get_sample_tensors is not
under src/.  It returns a per-element noise sample and the pre-activation of
each sampled class. -/
def get_sample_tensors (noise : NoiseModel t s m ns) (inputs : List (LayerIn t s))
    (w : List (List ℚ)) (b : List ℚ) :
    (Fin t → Fin s → Fin ns → Fin m) × (Fin t → Fin s → Fin ns → ℚ) :=
  (noise.draw,
   fun i j n => tensor_preact (layerInput inputs i j) w b m (noise.draw i j n))

/-- Modelled from the spec: SamplingOutputLayer._get_seqshared_sample_tensors
is not under src/.  The noise sample is shared across the sequences of a time
step. -/
def get_seqshared_sample_tensors (noise : NoiseModel t s m ns)
    (inputs : List (LayerIn t s)) (w : List (List ℚ)) (b : List ℚ) :
    (Fin t → Fin ns → Fin m) × (Fin t → Fin s → Fin ns → ℚ) :=
  (noise.drawSeq,
   fun i j n => tensor_preact (layerInput inputs i j) w b m (noise.drawSeq i n))

/-- Modelled from the spec: SamplingOutputLayer._get_shared_sample_tensors is
not under src/.  The noise sample is shared across the whole batch. -/
def get_shared_sample_tensors (noise : NoiseModel t s m ns)
    (inputs : List (LayerIn t s)) (w : List (List ℚ)) (b : List ℚ) :
    (Fin ns → Fin m) × (Fin t → Fin s → Fin ns → ℚ) :=
  (noise.drawShared,
   fun i j n => tensor_preact (layerInput inputs i j) w b m (noise.drawShared n))

/-- SoftmaxLayer.create_structure (softmaxlayer.py lines 46-104): concatenates
the input layers, takes the pre-activation, reshapes to one row per (time
step, sequence) position, applies the softmax row-wise, and reshapes back; the
target probabilities gather, at each flattened position, the output
probability of the flattened target class id.  e models the exponential
inside tensor.nnet.softmax; w and b are the values the params dictionary
associates with the weight and bias of this layer; noise models the random
source of the sampling methods.  When network.exclude_unk is set, line 79
reads the name output_prob, which is not bound at that point, so the call
raises a NameError before producing anything. -/
def createStructure (e : ℚ → ℚ) (net : NetworkCtx t s m) (noise : NoiseModel t s m ns)
    (inputs : List (LayerIn t s)) (w : List (List ℚ)) (b : List ℚ) :
    Except String (SoftmaxLayerState t s m ns) :=
  let preact3 : Fin t → Fin s → Fin m → ℚ :=
    fun i j => tensor_preact (layerInput inputs i j) w b m
  let preact2 : Fin (t * s) → Fin m → ℚ :=
    fun p => preact3 (unflatIdx1 t s p) (unflatIdx2 t s p)
  if net.exclude_unk then
    Except.error "NameError: name output_prob is not defined"
  else
    let outputProbs2 : Fin (t * s) → Fin m → ℚ := fun p => softmax e (preact2 p)
    let targetIds1 : Fin (t * s) → Fin m :=
      fun p => net.target_class_ids (unflatIdx1 t s p) (unflatIdx2 t s p)
    let targetProbs1 : Fin (t * s) → ℚ := fun p => outputProbs2 p (targetIds1 p)
    Except.ok
      { output_probs := some (fun i j k => outputProbs2 (flatIdx i j) k)
        target_probs := some (fun i j => targetProbs1 (flatIdx i j))
        unnormalized_logprobs := some (get_unnormalized_logprobs net inputs w b)
        sample := some (get_sample_tensors noise inputs w b).1
        sample_logprobs := some (get_sample_tensors noise inputs w b).2
        seqshared_sample := some (get_seqshared_sample_tensors noise inputs w b).1
        seqshared_sample_logprobs := some (get_seqshared_sample_tensors noise inputs w b).2
        shared_sample := some (get_shared_sample_tensors noise inputs w b).1
        shared_sample_logprobs := some (get_shared_sample_tensors noise inputs w b).2 }

/-- One step of layer construction: the layer name, the positions (in
construction order) of the already-built layers handed to BasicLayer.__init__
as input_layers, and the output size (basiclayer.py lines 15-48). -/
structure LayerSpec where
  name : String
  inputs : List Nat
  output_size : Nat

/-- A construction sequence is well formed when every input of the layer built
at step i is a layer built at an earlier step; in Python the input_layers
objects must already exist when BasicLayer.__init__ receives them. -/
def wfNetwork (net : List LayerSpec) : Prop :=
  ∀ i, (h : i < net.length) → ∀ j ∈ (net.getD i (LayerSpec.mk "" [] 0)).inputs, j < i

/-- The input-layer relation on construction positions: layer i lists layer j
among its input layers. -/
def inputEdge (net : List LayerSpec) (i j : Nat) : Prop :=
  i < net.length ∧ j ∈ (net.getD i (LayerSpec.mk "" [] 0)).inputs

/-- Example exponential: constantly one, trivially positive. -/
def expOne : ℚ → ℚ := fun _ => 1

/-- Example input layer with two projection components. -/
def exIn : LayerIn 1 1 :=
  { output_size := 2, output := fun _ _ => [1, 2] }

/-- Second example input layer with one projection component. -/
def exIn2 : LayerIn 1 1 :=
  { output_size := 1, output := fun _ _ => [3] }

/-- Example network context with the exclude_unk flag cleared. -/
def exNet : NetworkCtx 1 1 2 :=
  { exclude_unk := false, target_class_ids := fun _ _ => 1, unk_id := 0 }

/-- Example network context with the exclude_unk flag set. -/
def exNetUnk : NetworkCtx 1 1 2 :=
  { exclude_unk := true, target_class_ids := fun _ _ => 1, unk_id := 0 }

/-- Example noise model drawing class 0 everywhere. -/
def exNoise : NoiseModel 1 1 2 1 :=
  { draw := fun _ _ _ => 0, drawSeq := fun _ _ => 0, drawShared := fun _ => 0 }

/-- Example weight matrix of shape 3 by 2. -/
def exW : List (List ℚ) := [[1, 0], [0, 1], [1, 1]]

/-- Example bias of length 2. -/
def exB : List ℚ := [0, 1]

/-- The state produced by the example successful call of createStructure. -/
def exState : SoftmaxLayerState 1 1 2 1 :=
  (createStructure expOne exNet exNoise [exIn, exIn2] exW exB).toOption.getD
    (softmaxInitState 1 1 2 1)

/-- Example input layer over two sequences. -/
def exInB : LayerIn 1 2 :=
  { output_size := 2, output := fun _ j => [(j.val : ℚ), 1] }

/-- Example network context over two sequences with the exclude_unk flag set. -/
def exNetUnkB : NetworkCtx 1 2 2 :=
  { exclude_unk := true, target_class_ids := fun _ _ => 0, unk_id := 1 }

/-- Example noise model over two sequences. -/
def exNoiseB : NoiseModel 1 2 2 1 :=
  { draw := fun _ _ _ => 0, drawSeq := fun _ _ => 0, drawShared := fun _ => 0 }

/-- Example layer object. -/
def exLayer : BasicLayer := BasicLayer.init "output" 2

/-- Example per-block random generator. -/
def exGen : Nat → Nat → Nat → ℚ := fun b r c => ((b * 7 + r * 3 + c : Nat) : ℚ)

/-- Example orthogonal generator. -/
def exGenO : Nat → ℚ → Nat → Nat → ℚ := fun b q r c => q + ((b + r + c : Nat) : ℚ)

/-- Example plain generator for the softmax weight. -/
def exGenW : Nat → Nat → ℚ := fun r c => ((r + 2 * c : Nat) : ℚ)

/-- Example construction sequence of three layers. -/
def exLayers : List LayerSpec :=
  [LayerSpec.mk "emb" [] 10, LayerSpec.mk "rec" [0] 20, LayerSpec.mk "out" [0, 1] 30]

/-- Example bias value list for the list case of _init_bias. -/
def exXs : List (Option ℚ) := [none, some 5]

/-- Example weight matrix of shape 2 by 2, matching exInB. -/
def exWB : List (List ℚ) := [[1, 0], [0, 1]]

theorem append_right_ne {a b c : String} (h : b ≠ c) : a ++ b ≠ a ++ c := by
  intro he
  apply h
  apply String.ext
  have hd : (a ++ b).data = (a ++ c).data := congrArg String.data he
  rw [String.data_append, String.data_append] at hd
  exact List.append_cancel_left hd

theorem unflat1_flat {t s : Nat} (i : Fin t) (j : Fin s) :
    unflatIdx1 t s (flatIdx i j) = i := by
  have hs : 0 < s := j.pos
  apply Fin.ext
  show (i.val * s + j.val) / s = i.val
  rw [Nat.mul_comm, Nat.mul_add_div hs, Nat.div_eq_of_lt j.isLt]
  rfl

theorem unflat2_flat {t s : Nat} (i : Fin t) (j : Fin s) :
    unflatIdx2 t s (flatIdx i j) = j := by
  apply Fin.ext
  show (i.val * s + j.val) % s = j.val
  rw [Nat.mul_comm, Nat.mul_add_mod, Nat.mod_eq_of_lt j.isLt]

theorem softmax_nonneg (e : ℚ → ℚ) (he : ∀ x, 0 < e x) {m : Nat} (v : Fin m → ℚ)
    (k : Fin m) : 0 ≤ softmax e v k := by
  unfold softmax
  exact div_nonneg (le_of_lt (he _)) (Finset.sum_nonneg fun l _ => le_of_lt (he _))

theorem softmax_sum_one (e : ℚ → ℚ) (he : ∀ x, 0 < e x) {m : Nat} (hm : 0 < m)
    (v : Fin m → ℚ) : ∑ k, softmax e v k = 1 := by
  have : Nonempty (Fin m) := Fin.pos_iff_nonempty.mp hm
  have hpos : 0 < ∑ l, e (v l) := Finset.sum_pos (fun l _ => he _) Finset.univ_nonempty
  unfold softmax
  rw [← Finset.sum_div]
  exact div_self (ne_of_gt hpos)

theorem transGen_inputEdge_lt (net : List LayerSpec) (hwf : wfNetwork net) :
    ∀ a b, Relation.TransGen (inputEdge net) a b → b < a := by
  intro a b h
  induction h with
  | single h1 => exact hwf _ h1.1 _ h1.2
  | tail _ h1 ih => exact lt_trans (hwf _ h1.1 _ h1.2) ih

theorem join_drop_take {α : Type} (L : List (List α)) (r : Nat) (hr : r < L.length) :
    (L.flatten.drop ((L.take r).map List.length).sum).take (L.get ⟨r, hr⟩).length =
      L.get ⟨r, hr⟩ := by
  induction L generalizing r with
  | nil => exact absurd hr (by simp)
  | cons hd tl ih =>
    cases r with
    | zero =>
      simp only [List.take_zero, List.map_nil, List.sum_nil, List.drop_zero,
        List.flatten_cons]
      exact List.take_left hd tl.flatten
    | succ r =>
      have hr' : r < tl.length := by simpa using hr
      simp only [List.take_succ_cons, List.map_cons, List.sum_cons, List.flatten_cons,
        List.get_cons_succ]
      rw [← List.drop_drop, List.drop_left]
      exact ih r hr'

theorem getD_map {α β : Type} (f : α → β) (l : List α) (bk : Nat) (hbk : bk < l.length)
    (d : α) (d' : β) : (l.map f).getD bk d' = f (l.getD bk d) := by
  rw [List.getD_eq_getElem _ _ (by simpa using hbk), List.getElem_map,
    List.getD_eq_getElem _ _ hbk]

theorem concatenateAxis1_length (ms : List (List (List ℚ))) (n : Nat) (hne : ms ≠ [])
    (h : ∀ mm ∈ ms, mm.length = n) : (concatenateAxis1 ms).length = n := by
  induction ms with
  | nil => exact absurd rfl hne
  | cons mm rest ih =>
    cases rest with
    | nil =>
      show mm.length = n
      exact h mm (List.mem_cons_self _ _)
    | cons mm2 rest2 =>
      show (List.zipWith (fun r₁ r₂ => r₁ ++ r₂) mm (concatenateAxis1 (mm2 :: rest2))).length = n
      rw [List.length_zipWith, ih (by simp) (fun x hx => h x (List.mem_cons_of_mem _ hx)),
        h mm (List.mem_cons_self _ _)]
      exact min_self n

theorem concatenateAxis1_row (ms : List (List (List ℚ))) (n : Nat) (hne : ms ≠ [])
    (h : ∀ mm ∈ ms, mm.length = n) (r : Nat) (hr : r < n) :
    (concatenateAxis1 ms).getD r [] = (ms.map fun mm => mm.getD r []).flatten := by
  induction ms with
  | nil => exact absurd rfl hne
  | cons mm rest ih =>
    cases rest with
    | nil =>
      show mm.getD r [] = mm.getD r [] ++ [].flatten
      simp
    | cons mm2 rest2 =>
      have hrest : ∀ x ∈ mm2 :: rest2, x.length = n :=
        fun x hx => h x (List.mem_cons_of_mem _ hx)
      have hcl : (concatenateAxis1 (mm2 :: rest2)).length = n :=
        concatenateAxis1_length _ n (by simp) hrest
      have hml : mm.length = n := h mm (List.mem_cons_self _ _)
      have hzl : (List.zipWith (fun r₁ r₂ => r₁ ++ r₂) mm
          (concatenateAxis1 (mm2 :: rest2))).length = n := by
        rw [List.length_zipWith, hml, hcl]; exact min_self n
      show (List.zipWith (fun r₁ r₂ => r₁ ++ r₂) mm
          (concatenateAxis1 (mm2 :: rest2))).getD r [] = _
      rw [List.getD_eq_getElem _ _ (by rw [hzl]; exact hr), List.getElem_zipWith,
        List.map_cons, List.flatten_cons]
      congr 1
      · exact (List.getD_eq_getElem mm [] (by rw [hml]; exact hr)).symm
      · rw [← List.getD_eq_getElem _ [] (by rw [hcl]; exact hr)]
        exact ih (by simp) hrest

theorem join_getD_uniform {α : Type} (L : List (List α)) (osz : Nat)
    (h : ∀ l ∈ L, l.length = osz) (bk c : Nat) (hbk : bk < L.length) (hc : c < osz)
    (d : α) : L.flatten.getD (bk * osz + c) d = (L.getD bk []).getD c d := by
  induction L generalizing bk with
  | nil => exact absurd hbk (by simp)
  | cons hd tl ih =>
    have hh : hd.length = osz := h hd (List.mem_cons_self _ _)
    cases bk with
    | zero =>
      rw [List.flatten_cons, Nat.zero_mul, Nat.zero_add,
        List.getD_append _ _ _ _ (by rw [hh]; exact hc), List.getD_cons_zero]
    | succ bk =>
      rw [List.flatten_cons, List.getD_append_right _ _ _ _ (by
        rw [hh, Nat.succ_mul]; omega)]
      have harith : (bk + 1) * osz + c - hd.length = bk * osz + c := by
        rw [hh, Nat.succ_mul]; omega
      rw [harith, List.getD_cons_succ]
      exact ih (fun l hl => h l (List.mem_cons_of_mem _ hl)) bk (by simpa using hbk)

theorem random_weight_length (gen : Nat → Nat → ℚ) (isz osz : Nat) (scale : ℚ) :
    (random_weight gen isz osz scale).length = isz := by
  simp [random_weight]

theorem random_weight_row (gen : Nat → Nat → ℚ) (isz osz : Nat) (scale : ℚ) (r : Nat)
    (hr : r < isz) : (random_weight gen isz osz scale).getD r [] =
      (List.range osz).map fun c => scale * gen r c := by
  unfold random_weight
  rw [getD_map _ _ _ (by simpa using hr) 0 [],
    List.getD_eq_getElem _ _ (by simpa using hr), List.getElem_range]

theorem random_weight_row_length (gen : Nat → Nat → ℚ) (isz osz : Nat) (scale : ℚ)
    (r : Nat) (hr : r < isz) : ((random_weight gen isz osz scale).getD r []).length = osz := by
  rw [random_weight_row gen isz osz scale r hr]
  simp

theorem random_weight_entry (gen : Nat → Nat → ℚ) (isz osz : Nat) (scale : ℚ)
    (r c : Nat) (hr : r < isz) (hc : c < osz) :
    ((random_weight gen isz osz scale).getD r []).getD c 0 = scale * gen r c := by
  rw [random_weight_row gen isz osz scale r hr,
    getD_map _ _ _ (by simpa using hc) 0 0,
    List.getD_eq_getElem _ _ (by simpa using hc), List.getElem_range]

/-- Claim C4: for every network whose exclude_unk flag is true,
SoftmaxLayer.create_structure raises an unbound-name error (line 79 reads the
variable output_prob before any definition) and therefore never produces
output_probs with the unknown-word activation set to minus infinity; only when
exclude_unk is false does create_structure complete. -/
theorem createStructure_exclude_unk_raises {t s m ns : Nat} (e : ℚ → ℚ)
    (net : NetworkCtx t s m) (noise : NoiseModel t s m ns)
    (inputs : List (LayerIn t s)) (w : List (List ℚ)) (b : List ℚ) :
    (net.exclude_unk = true →
      createStructure e net noise inputs w b =
        Except.error "NameError: name output_prob is not defined") ∧
    (net.exclude_unk = false →
      ∃ st, createStructure e net noise inputs w b = Except.ok st) := by
  constructor
  · intro h
    unfold createStructure
    rw [h]
    rfl
  · intro h
    refine ⟨(createStructure e net noise inputs w b).toOption.getD
      (softmaxInitState t s m ns), ?_⟩
    unfold createStructure
    rw [h]
    rfl

/-- Claim C4 witness: both branches evaluated at concrete networks. -/
theorem createStructure_exclude_unk_raises_witness :
    (exNetUnk.exclude_unk = true ∧
      createStructure expOne exNetUnk exNoise [exIn, exIn2] exW exB =
        Except.error "NameError: name output_prob is not defined") ∧
    (exNet.exclude_unk = false ∧
      ∃ st, createStructure expOne exNet exNoise [exIn, exIn2] exW exB = Except.ok st) :=
  ⟨⟨rfl, (createStructure_exclude_unk_raises expOne exNetUnk exNoise [exIn, exIn2]
      exW exB).1 rfl⟩,
   ⟨rfl, (createStructure_exclude_unk_raises expOne exNet exNoise [exIn, exIn2]
      exW exB).2 rfl⟩⟩

/-- Claim C1 counterexample: at a network state with exclude_unk set,
create_structure fails with a NameError instead of setting output_probs, so
the claim does not hold at every network state. -/
theorem output_probs_softmax_counterexample :
    createStructure expOne exNetUnk exNoise [exIn, exIn2] exW exB =
      Except.error "NameError: name output_prob is not defined" ∧
    (createStructure expOne exNetUnk exNoise [exIn, exIn2] exW exB).toOption = none :=
  ⟨rfl, rfl⟩

/-- Claim C1 (amended): for every network state whose exclude_unk flag is
false, create_structure sets output_probs to the softmax of the affine
pre-activation (dot product of the concatenated layer input with the weight
parameter plus the bias), taken independently at each (time step, sequence)
position over the output classes; every entry is non-negative and, at each
position, the entries over all output classes sum to one, given a positive
softmax exponential and at least one output class. -/
theorem output_probs_softmax {t s m ns : Nat} (e : ℚ → ℚ) (he : ∀ x, 0 < e x)
    (hm : 0 < m) (net : NetworkCtx t s m) (noise : NoiseModel t s m ns)
    (inputs : List (LayerIn t s)) (w : List (List ℚ)) (b : List ℚ)
    (hunk : net.exclude_unk = false) :
    ∃ st, createStructure e net noise inputs w b = Except.ok st ∧
      ∃ f, st.output_probs = some f ∧
        (∀ i j k, f i j k = softmax e (tensor_preact (layerInput inputs i j) w b m) k) ∧
        (∀ i j k, 0 ≤ f i j k) ∧
        (∀ i j, ∑ k, f i j k = 1) := by
  unfold createStructure
  rw [hunk]
  simp only [Bool.false_eq_true, if_false]
  refine ⟨_, rfl, _, rfl, ?_, ?_, ?_⟩
  · intro i j k
    simp only [unflat1_flat, unflat2_flat]
  · intro i j k
    exact softmax_nonneg e he _ k
  · intro i j
    exact softmax_sum_one e he hm _

/-- Claim C1 witness: the amended theorem applied at a concrete network. -/
theorem output_probs_softmax_witness :
    (∀ x : ℚ, 0 < expOne x) ∧ (0 : Nat) < 2 ∧ exNet.exclude_unk = false ∧
    (∃ st, createStructure expOne exNet exNoise [exIn, exIn2] exW exB = Except.ok st ∧
      ∃ f, st.output_probs = some f ∧
        (∀ i j k, f i j k =
          softmax expOne (tensor_preact (layerInput [exIn, exIn2] i j) exW exB 2) k) ∧
        (∀ i j k, 0 ≤ f i j k) ∧
        (∀ i j, ∑ k, f i j k = 1)) :=
  ⟨fun _ => one_pos, by decide, rfl,
   output_probs_softmax expOne (fun _ => one_pos) (by decide) exNet exNoise
     [exIn, exIn2] exW exB rfl⟩

/-- Claim C2 counterexample: a network whose target_class_ids are given but
whose exclude_unk flag is set; create_structure fails with a NameError and
never sets target_probs. -/
theorem target_probs_gather_counterexample :
    createStructure expOne exNetUnkB exNoiseB [exInB] exWB exB =
      Except.error "NameError: name output_prob is not defined" ∧
    (createStructure expOne exNetUnkB exNoiseB [exInB] exWB exB).toOption = none :=
  ⟨rfl, rfl⟩

/-- Claim C2 (amended): for every network whose target_class_ids are given and
whose exclude_unk flag is false, create_structure sets target_probs so that at
every (time step, sequence) position it equals the entry of output_probs at
the target class id of that position; target_probs is indexed by time step and
sequence. -/
theorem target_probs_gather {t s m ns : Nat} (e : ℚ → ℚ) (net : NetworkCtx t s m)
    (noise : NoiseModel t s m ns) (inputs : List (LayerIn t s)) (w : List (List ℚ))
    (b : List ℚ) (hunk : net.exclude_unk = false) :
    ∃ st, createStructure e net noise inputs w b = Except.ok st ∧
      ∃ f g, st.output_probs = some f ∧ st.target_probs = some g ∧
        ∀ i j, g i j = f i j (net.target_class_ids i j) := by
  unfold createStructure
  rw [hunk]
  simp only [Bool.false_eq_true, if_false]
  refine ⟨_, rfl, _, _, rfl, rfl, ?_⟩
  intro i j
  simp only [unflat1_flat, unflat2_flat]

/-- Claim C2 witness: the amended theorem applied at a concrete network. -/
theorem target_probs_gather_witness :
    exNet.exclude_unk = false ∧
    ∃ st, createStructure expOne exNet exNoise [exIn, exIn2] exW exB = Except.ok st ∧
      ∃ f g, st.output_probs = some f ∧ st.target_probs = some g ∧
        ∀ i j, g i j = f i j (exNet.target_class_ids i j) :=
  ⟨rfl, target_probs_gather expOne exNet exNoise [exIn, exIn2] exW exB rfl⟩

/-- Claim C7: after SoftmaxLayer.__init__ the nine output attributes
output_probs, target_probs, unnormalized_logprobs, sample, sample_logprobs,
seqshared_sample, seqshared_sample_logprobs, shared_sample and
shared_sample_logprobs are all None, and every successful call of
create_structure assigns all nine. -/
theorem nine_output_attributes {t s m ns : Nat} :
    ((softmaxInitState t s m ns).output_probs = none ∧
     (softmaxInitState t s m ns).target_probs = none ∧
     (softmaxInitState t s m ns).unnormalized_logprobs = none ∧
     (softmaxInitState t s m ns).sample = none ∧
     (softmaxInitState t s m ns).sample_logprobs = none ∧
     (softmaxInitState t s m ns).seqshared_sample = none ∧
     (softmaxInitState t s m ns).seqshared_sample_logprobs = none ∧
     (softmaxInitState t s m ns).shared_sample = none ∧
     (softmaxInitState t s m ns).shared_sample_logprobs = none) ∧
    ∀ (e : ℚ → ℚ) (net : NetworkCtx t s m) (noise : NoiseModel t s m ns)
      (inputs : List (LayerIn t s)) (w : List (List ℚ)) (b : List ℚ)
      (st : SoftmaxLayerState t s m ns),
      createStructure e net noise inputs w b = Except.ok st →
        st.output_probs.isSome = true ∧ st.target_probs.isSome = true ∧
        st.unnormalized_logprobs.isSome = true ∧ st.sample.isSome = true ∧
        st.sample_logprobs.isSome = true ∧ st.seqshared_sample.isSome = true ∧
        st.seqshared_sample_logprobs.isSome = true ∧ st.shared_sample.isSome = true ∧
        st.shared_sample_logprobs.isSome = true := by
  refine ⟨⟨rfl, rfl, rfl, rfl, rfl, rfl, rfl, rfl, rfl⟩, ?_⟩
  intro e net noise inputs w b st h
  unfold createStructure at h
  cases hx : net.exclude_unk
  · rw [hx] at h
    simp only [Bool.false_eq_true, if_false] at h
    rw [Except.ok.injEq] at h
    subst h
    exact ⟨rfl, rfl, rfl, rfl, rfl, rfl, rfl, rfl, rfl⟩
  · rw [hx] at h
    simp at h

/-- Claim C7 witness: a concrete successful call assigning all nine output
attributes, next to the all-None initial state. -/
theorem nine_output_attributes_witness :
    createStructure expOne exNet exNoise [exIn, exIn2] exW exB = Except.ok exState ∧
    (softmaxInitState 1 1 2 1).output_probs = none ∧
    (exState.output_probs.isSome = true ∧ exState.target_probs.isSome = true ∧
     exState.unnormalized_logprobs.isSome = true ∧ exState.sample.isSome = true ∧
     exState.sample_logprobs.isSome = true ∧ exState.seqshared_sample.isSome = true ∧
     exState.seqshared_sample_logprobs.isSome = true ∧ exState.shared_sample.isSome = true ∧
     exState.shared_sample_logprobs.isSome = true) := by
  have hok : createStructure expOne exNet exNoise [exIn, exIn2] exW exB =
      Except.ok exState := rfl
  exact ⟨hok, (nine_output_attributes).1.1,
    (nine_output_attributes).2 expOne exNet exNoise [exIn, exIn2] exW exB exState hok⟩

theorem getD_replicate_of_lt {α : Type} (n : Nat) (a d : α) (c : Nat) (hc : c < n) :
    (List.replicate n a).getD c d = a := by
  rw [List.getD_eq_getElem _ _ (by simpa using hc), List.getElem_replicate]

/-- Claim C5: each of _init_random_weight, _init_orthogonal_weight and
_init_bias stores its initial value in param_init_values under the key
<layer name>.<parameter name>, and after set_params(params), _get_param p
returns exactly the entry of params at <layer name>.<parameter name>, so
declaration and retrieval round-trip through the same key. -/
theorem param_key_roundtrip (layer : BasicLayer) (gen₁ : Nat → Nat → Nat → ℚ)
    (gen₂ : Nat → ℚ → Nat → Nat → ℚ) (p : String) (isz osz : Nat) (scale : Option ℚ)
    (count : Nat) (size : Nat) (value : BiasValue) (params : ParamStore) :
    ((layer.set_params params)._get_param p = params (layer.name ++ "." ++ p)) ∧
    (((layer._init_random_weight gen₁ p isz osz scale count).param_init_values
        (layer.name ++ "." ++ p)).isSome = true) ∧
    (((layer._init_random_weight gen₁ p isz osz scale count).set_params
        (layer._init_random_weight gen₁ p isz osz scale count).param_init_values)._get_param
        p =
      (layer._init_random_weight gen₁ p isz osz scale count).param_init_values
        (layer.name ++ "." ++ p)) ∧
    (((layer._init_orthogonal_weight gen₂ p isz osz scale count).param_init_values
        (layer.name ++ "." ++ p)).isSome = true) ∧
    (((layer._init_orthogonal_weight gen₂ p isz osz scale count).set_params
        (layer._init_orthogonal_weight gen₂ p isz osz scale count).param_init_values)._get_param
        p =
      (layer._init_orthogonal_weight gen₂ p isz osz scale count).param_init_values
        (layer.name ++ "." ++ p)) ∧
    (((layer._init_bias p size value).param_init_values
        (layer.name ++ "." ++ p)).isSome = true) ∧
    (((layer._init_bias p size value).set_params
        (layer._init_bias p size value).param_init_values)._get_param p =
      (layer._init_bias p size value).param_init_values (layer.name ++ "." ++ p)) := by
  refine ⟨rfl, ?_, rfl, ?_, rfl, ?_, rfl⟩
  · simp [BasicLayer._init_random_weight, storeSet]
  · simp [BasicLayer._init_orthogonal_weight, storeSet]
  · simp [BasicLayer._init_bias, storeSet]

/-- Claim C6: when every input layer of each constructed layer was constructed
at an earlier step, which is what BasicLayer.__init__ receives, the
input-layer relation over the constructed layers contains no cycle. -/
theorem input_layer_relation_acyclic (net : List LayerSpec) (hwf : wfNetwork net)
    (i : Nat) : ¬ Relation.TransGen (inputEdge net) i i := by
  intro h
  exact lt_irrefl i (transGen_inputEdge_lt net hwf i i h)

/-- Claim C6 witness: a concrete three-layer construction sequence. -/
theorem input_layer_relation_acyclic_witness :
    wfNetwork exLayers ∧ ¬ Relation.TransGen (inputEdge exLayers) 2 2 :=
  ⟨by unfold wfNetwork; decide,
   input_layer_relation_acyclic exLayers (by unfold wfNetwork; decide) 2⟩

/-- Claim C9: _init_bias stores under <layer name>.<parameter name> a zero
vector of length size when value is None, a constant vector of length size
when value is a scalar, and when value is a list of k elements the
concatenation of k subvectors of length size each, a None element giving a
zero subvector and a float element a constant subvector, total length
k * size. -/
theorem init_bias_cases (layer : BasicLayer) (p : String) (size : Nat) (x : ℚ)
    (xs : List (Option ℚ)) :
    ((layer._init_bias p size BiasValue.noneVal).param_init_values
        (layer.name ++ "." ++ p) = some (ParamValue.vector (List.replicate size 0))) ∧
    ((layer._init_bias p size (BiasValue.scalar x)).param_init_values
        (layer.name ++ "." ++ p) = some (ParamValue.vector (List.replicate size x))) ∧
    (∃ v, (layer._init_bias p size (BiasValue.listVal xs)).param_init_values
        (layer.name ++ "." ++ p) = some (ParamValue.vector v) ∧
      v.length = xs.length * size ∧
      ∀ bk c, bk < xs.length → c < size →
        v.getD (bk * size + c) 0 = (xs.getD bk none).getD 0) := by
  refine ⟨by simp [BasicLayer._init_bias, storeSet, biasSubvector],
    by simp [BasicLayer._init_bias, storeSet, biasSubvector],
    (xs.map (biasSubvector size)).flatten,
    by simp [BasicLayer._init_bias, storeSet], ?_, ?_⟩
  · rw [List.length_flatten, List.map_map]
    have hconst : List.map (List.length ∘ biasSubvector size) xs =
        List.map (fun _ => size) xs :=
      List.map_congr_left (fun o _ => by cases o <;> simp [biasSubvector])
    rw [hconst]
    simp [List.map_const]
  · intro bk c hbk hc
    have hlen : ∀ l ∈ xs.map (biasSubvector size), l.length = size := by
      intro l hl
      obtain ⟨o, _, rfl⟩ := List.mem_map.mp hl
      cases o <;> simp [biasSubvector]
    rw [join_getD_uniform _ size hlen bk c (by simpa using hbk) hc,
      getD_map _ _ _ hbk none []]
    cases hxs : xs.getD bk none with
    | none =>
      simp only [biasSubvector, Option.getD_none]
      exact getD_replicate_of_lt size 0 0 c hc
    | some y =>
      simp only [biasSubvector, Option.getD_some]
      exact getD_replicate_of_lt size y 0 c hc

/-- Claim C9 witness: the list case evaluated at a concrete layer with a
two-element value list. -/
theorem init_bias_cases_witness :
    (1 < exXs.length ∧ 0 < 2) ∧
    (∃ v, (exLayer._init_bias "b" 2 (BiasValue.listVal exXs)).param_init_values
        (exLayer.name ++ "." ++ "b") = some (ParamValue.vector v) ∧
      v.getD (1 * 2 + 0) 0 = (exXs.getD 1 none).getD 0) := by
  obtain ⟨v, hv, _, hentry⟩ := (init_bias_cases exLayer "b" 2 5 exXs).2.2
  exact ⟨⟨by decide, by decide⟩, v, hv, hentry 1 0 (by decide) (by decide)⟩

/-- Claim C3: the softmax layer weight input/W is created with input dimension
the sum of the output sizes of every input layer, and create_structure forms
the layer input by concatenating the input layers' outputs along the third
(projection) axis in list order: at every position the concatenation has that
same sum as its length, and the segment allotted to the r-th input layer is
exactly that layer's output. -/
theorem softmax_weight_dims_and_concat {t s : Nat} (layer : BasicLayer)
    (gen : Nat → Nat → ℚ) (inputs : List (LayerIn t s))
    (hlen : ∀ x ∈ inputs, ∀ i j, (x.output i j).length = x.output_size) :
    (∃ rows, (softmaxInitParams layer gen inputs).param_init_values
        (layer.name ++ "." ++ "input/W") = some (ParamValue.matrix rows) ∧
      rows.length = (inputs.map fun x => x.output_size).sum) ∧
    (∀ i j, (layerInput inputs i j).length = (inputs.map fun x => x.output_size).sum) ∧
    (∀ r (hr : r < inputs.length) i j,
      ((layerInput inputs i j).drop
          (((inputs.take r).map fun x => x.output_size).sum)).take
        (inputs.get ⟨r, hr⟩).output_size = (inputs.get ⟨r, hr⟩).output i j) := by
  refine ⟨⟨random_weight gen ((inputs.map fun x => x.output_size).sum)
      layer.output_size (1 / 100), ?_, ?_⟩, ?_, ?_⟩
  · have hne : layer.name ++ "." ++ "input/W" ≠ layer.name ++ "." ++ "input/b" :=
      append_right_ne (by decide)
    simp [softmaxInitParams, BasicLayer._init_weight, BasicLayer._init_bias,
      storeSet, hne]
  · exact random_weight_length _ _ _ _
  · intro i j
    unfold layerInput
    rw [List.length_flatten, List.map_map]
    exact congrArg List.sum (List.map_congr_left fun x hx => hlen x hx i j)
  · intro r hr i j
    have hrm : r < (inputs.map fun x => x.output i j).length := by simpa using hr
    have hseg := join_drop_take (inputs.map fun x => x.output i j) r hrm
    have hget : (inputs.map fun x => x.output i j).get ⟨r, hrm⟩ =
        (inputs.get ⟨r, hr⟩).output i j := by
      rw [List.get_eq_getElem, List.getElem_map, List.get_eq_getElem]
    have hsum : (((inputs.map fun x => x.output i j).take r).map List.length).sum =
        ((inputs.take r).map fun x => x.output_size).sum := by
      rw [← List.map_take, List.map_map]
      exact congrArg List.sum (List.map_congr_left fun x hx =>
        hlen x (List.take_subset r inputs hx) i j)
    have hmem : inputs.get ⟨r, hr⟩ ∈ inputs := by
      rw [List.get_eq_getElem]
      exact List.getElem_mem _
    have hlen2 : ((inputs.map fun x : LayerIn t s => x.output i j).get ⟨r, hrm⟩).length =
        (inputs.get ⟨r, hr⟩).output_size := by
      rw [hget]
      exact hlen _ hmem i j
    unfold layerInput
    rw [← hsum, ← hlen2, hseg]
    exact hget

/-- Claim C3 witness: the theorem applied to two concrete input layers. -/
theorem softmax_weight_dims_and_concat_witness :
    (∀ x ∈ [exIn, exIn2], ∀ i j, (x.output i j).length = x.output_size) ∧
    (∃ rows, (softmaxInitParams exLayer exGenW [exIn, exIn2]).param_init_values
        (exLayer.name ++ "." ++ "input/W") = some (ParamValue.matrix rows) ∧
      rows.length = ([exIn, exIn2].map fun x => x.output_size).sum) ∧
    (∀ i j, (layerInput [exIn, exIn2] i j).length =
      ([exIn, exIn2].map fun x => x.output_size).sum) := by
  have h := softmax_weight_dims_and_concat exLayer exGenW [exIn, exIn2] (by decide)
  exact ⟨by decide, h.1, h.2.1⟩

/-- Length of an orthogonal_weight matrix: one row per input unit. -/
theorem orthogonal_weight_length (gen : ℚ → Nat → Nat → ℚ) (isz osz : Nat) (scale : ℚ) :
    (orthogonal_weight gen isz osz scale).length = isz := by
  simp [orthogonal_weight]

theorem orthogonal_weight_row (gen : ℚ → Nat → Nat → ℚ) (isz osz : Nat) (scale : ℚ)
    (r : Nat) (hr : r < isz) : (orthogonal_weight gen isz osz scale).getD r [] =
      (List.range osz).map fun c => gen scale r c := by
  unfold orthogonal_weight
  rw [getD_map _ _ _ (by simpa using hr) 0 [],
    List.getD_eq_getElem _ _ (by simpa using hr), List.getElem_range]

theorem orthogonal_weight_row_length (gen : ℚ → Nat → Nat → ℚ) (isz osz : Nat)
    (scale : ℚ) (r : Nat) (hr : r < isz) :
    ((orthogonal_weight gen isz osz scale).getD r []).length = osz := by
  rw [orthogonal_weight_row gen isz osz scale r hr]
  simp

theorem orthogonal_weight_entry (gen : ℚ → Nat → Nat → ℚ) (isz osz : Nat) (scale : ℚ)
    (r c : Nat) (hr : r < isz) (hc : c < osz) :
    ((orthogonal_weight gen isz osz scale).getD r []).getD c 0 = gen scale r c := by
  rw [orthogonal_weight_row gen isz osz scale r hr,
    getD_map _ _ _ (by simpa using hc) 0 0,
    List.getD_eq_getElem _ _ (by simpa using hc), List.getElem_range]

/-- Claim C8: the scale argument of _init_random_weight and
_init_orthogonal_weight has no effect on the stored matrix, which is always
generated with the hard-coded scale 0.01; in both cases the stored matrix has
input_size rows of length count * output_size each, the column-wise
concatenation of count generated blocks: block bk of the random weight
contributes entry 0.01 * gen bk r c at column bk * output_size + c, and block
bk of the orthogonal weight the entry of its generator at scale 0.01. -/
theorem init_weight_scale_ignored (layer : BasicLayer) (gen : Nat → Nat → Nat → ℚ)
    (genO : Nat → ℚ → Nat → Nat → ℚ) (p : String) (isz osz : Nat)
    (scale₁ scale₂ : Option ℚ) (count : Nat) (hcount : 0 < count) :
    (layer._init_random_weight gen p isz osz scale₁ count =
      layer._init_random_weight gen p isz osz scale₂ count) ∧
    (layer._init_orthogonal_weight genO p isz osz scale₁ count =
      layer._init_orthogonal_weight genO p isz osz scale₂ count) ∧
    (∃ rows, (layer._init_random_weight gen p isz osz scale₁ count).param_init_values
        (layer.name ++ "." ++ p) = some (ParamValue.matrix rows) ∧
      rows.length = isz ∧
      (∀ r, r < isz → (rows.getD r []).length = count * osz) ∧
      (∀ r bk c, r < isz → bk < count → c < osz →
        (rows.getD r []).getD (bk * osz + c) 0 = (1 / 100) * gen bk r c)) ∧
    (∃ rowsO, (layer._init_orthogonal_weight genO p isz osz scale₁ count).param_init_values
        (layer.name ++ "." ++ p) = some (ParamValue.matrix rowsO) ∧
      rowsO.length = isz ∧
      (∀ r, r < isz → (rowsO.getD r []).length = count * osz) ∧
      (∀ r bk c, r < isz → bk < count → c < osz →
        (rowsO.getD r []).getD (bk * osz + c) 0 = genO bk (1 / 100) r c)) := by
  have hne : ((List.range count).map fun b =>
      random_weight (gen b) isz osz (1 / 100)) ≠ [] := by
    simp only [ne_eq, List.map_eq_nil_iff, List.range_eq_nil]
    omega
  have hml : ∀ mm ∈ (List.range count).map fun b =>
      random_weight (gen b) isz osz (1 / 100), mm.length = isz := by
    intro mm hmm
    obtain ⟨bb, _, rfl⟩ := List.mem_map.mp hmm
    exact random_weight_length _ _ _ _
  have hneO : ((List.range count).map fun b =>
      orthogonal_weight (genO b) isz osz (1 / 100)) ≠ [] := by
    simp only [ne_eq, List.map_eq_nil_iff, List.range_eq_nil]
    omega
  have hmlO : ∀ mm ∈ (List.range count).map fun b =>
      orthogonal_weight (genO b) isz osz (1 / 100), mm.length = isz := by
    intro mm hmm
    obtain ⟨bb, _, rfl⟩ := List.mem_map.mp hmm
    exact orthogonal_weight_length _ _ _ _
  refine ⟨rfl, rfl,
    ⟨concatenateAxis1 ((List.range count).map fun b =>
        random_weight (gen b) isz osz (1 / 100)),
      by simp [BasicLayer._init_random_weight, storeSet], ?_, ?_, ?_⟩,
    ⟨concatenateAxis1 ((List.range count).map fun b =>
        orthogonal_weight (genO b) isz osz (1 / 100)),
      by simp [BasicLayer._init_orthogonal_weight, storeSet], ?_, ?_, ?_⟩⟩
  · exact concatenateAxis1_length _ isz hne hml
  · intro r hr
    rw [concatenateAxis1_row _ isz hne hml r hr, List.length_flatten, List.map_map]
    have hconst : List.map (List.length ∘ fun mm => mm.getD r [])
        (List.map (fun b => random_weight (gen b) isz osz (1 / 100))
          (List.range count)) =
        List.map (fun _ => osz) (List.range count) := by
      rw [List.map_map]
      exact List.map_congr_left fun bb _ =>
        random_weight_row_length (gen bb) isz osz (1 / 100) r hr
    rw [hconst]
    simp [List.map_const]
  · intro r bk c hr hbk hc
    rw [concatenateAxis1_row _ isz hne hml r hr]
    have hL : ∀ l ∈ ((List.range count).map fun b =>
        random_weight (gen b) isz osz (1 / 100)).map fun mm => mm.getD r [],
        l.length = osz := by
      intro l hl
      obtain ⟨mm, hmm, rfl⟩ := List.mem_map.mp hl
      obtain ⟨bb, _, rfl⟩ := List.mem_map.mp hmm
      exact random_weight_row_length _ _ _ _ _ hr
    have hrange : (List.range count).getD bk 0 = bk := by
      rw [List.getD_eq_getElem _ _ (by simpa using hbk), List.getElem_range]
    rw [join_getD_uniform _ osz hL bk c (by simpa using hbk) hc,
      getD_map _ _ _ (by simpa using hbk) [] [],
      getD_map _ _ _ (by simpa using hbk) 0 [], hrange]
    exact random_weight_entry (gen bk) isz osz (1 / 100) r c hr hc
  · exact concatenateAxis1_length _ isz hneO hmlO
  · intro r hr
    rw [concatenateAxis1_row _ isz hneO hmlO r hr, List.length_flatten, List.map_map]
    have hconst : List.map (List.length ∘ fun mm => mm.getD r [])
        (List.map (fun b => orthogonal_weight (genO b) isz osz (1 / 100))
          (List.range count)) =
        List.map (fun _ => osz) (List.range count) := by
      rw [List.map_map]
      exact List.map_congr_left fun bb _ =>
        orthogonal_weight_row_length (genO bb) isz osz (1 / 100) r hr
    rw [hconst]
    simp [List.map_const]
  · intro r bk c hr hbk hc
    rw [concatenateAxis1_row _ isz hneO hmlO r hr]
    have hL : ∀ l ∈ ((List.range count).map fun b =>
        orthogonal_weight (genO b) isz osz (1 / 100)).map fun mm => mm.getD r [],
        l.length = osz := by
      intro l hl
      obtain ⟨mm, hmm, rfl⟩ := List.mem_map.mp hl
      obtain ⟨bb, _, rfl⟩ := List.mem_map.mp hmm
      exact orthogonal_weight_row_length _ _ _ _ _ hr
    have hrange : (List.range count).getD bk 0 = bk := by
      rw [List.getD_eq_getElem _ _ (by simpa using hbk), List.getElem_range]
    rw [join_getD_uniform _ osz hL bk c (by simpa using hbk) hc,
      getD_map _ _ _ (by simpa using hbk) [] [],
      getD_map _ _ _ (by simpa using hbk) 0 [], hrange]
    exact orthogonal_weight_entry (genO bk) isz osz (1 / 100) r c hr hc

/-- Claim C8 witness: the theorem applied at concrete sizes with two different
scale arguments, exhibiting a block entry of both the random and the
orthogonal stored matrix. -/
theorem init_weight_scale_ignored_witness :
    (0 < 2 ∧ exLayer._init_random_weight exGen "W" 2 2 none 2 =
      exLayer._init_random_weight exGen "W" 2 2 (some 7) 2 ∧
      exLayer._init_orthogonal_weight exGenO "W" 2 2 none 2 =
      exLayer._init_orthogonal_weight exGenO "W" 2 2 (some 7) 2) ∧
    (∃ rows, (exLayer._init_random_weight exGen "W" 2 2 none 2).param_init_values
        (exLayer.name ++ "." ++ "W") = some (ParamValue.matrix rows) ∧
      (rows.getD 1 []).getD (1 * 2 + 0) 0 = (1 / 100) * exGen 1 1 0) ∧
    (∃ rowsO, (exLayer._init_orthogonal_weight exGenO "W" 2 2 none 2).param_init_values
        (exLayer.name ++ "." ++ "W") = some (ParamValue.matrix rowsO) ∧
      (rowsO.getD 1 []).getD (1 * 2 + 1) 0 = exGenO 1 (1 / 100) 1 1) := by
  obtain ⟨heq, heqO, ⟨rows, hrows, _, _, hentry⟩, ⟨rowsO, hrowsO, _, _, hentryO⟩⟩ :=
    init_weight_scale_ignored exLayer exGen exGenO "W" 2 2 none (some 7) 2 (by decide)
  exact ⟨⟨by decide, heq, heqO⟩,
    ⟨rows, hrows, hentry 1 1 0 (by decide) (by decide) (by decide)⟩,
    ⟨rowsO, hrowsO, hentryO 1 1 1 (by decide) (by decide) (by decide)⟩⟩
